import Mathlib

/-!
Verification development for the ljdump-go incremental journal mirroring tool
(`main.go`).  Go maps are embedded as association lists whose order models the
(arbitrary) iteration order; a `nil` Go map is embedded as `none` over an
`Option` of an association list, since reading from a nil map yields the zero
value while assigning into one panics.  Machine integers (`int`, `int64`,
`CommentId`, `UserId`) are embedded as `Int`; none of the verified properties
depend on overflow.  Network, filesystem and clock effects are supplied by
explicit environment records of oracle functions, and the two comment
pagination loops (which in Go run until the server-declared target is reached)
take an explicit fuel argument.
-/

/-- Go map read `m[k]` returning `some v` for a present key, `none` otherwise.
The list order models Go's (irrelevant for lookup) iteration order; the first
binding wins, and `mapSet` keeps keys unique. -/
def lookupKV {α β : Type} [DecidableEq α] : List (α × β) → α → Option β
  | [], _ => none
  | (k0, v0) :: rest, k => if k0 = k then some v0 else lookupKV rest k

/-- Go map assignment `m[k] = v`: replaces the binding of `k` when present,
otherwise adds it. -/
def mapSet {α β : Type} [DecidableEq α] : List (α × β) → α → β → List (α × β)
  | [], k, v => [(k, v)]
  | (k0, v0) :: rest, k, v =>
    if k0 = k then (k, v) :: rest else (k0, v0) :: mapSet rest k v

/-- Go string-map read `m[k]` with the zero-value default `""`. -/
def lookupStrD (m : List (String × String)) (k : String) : String :=
  (lookupKV m k).getD ""

/-- Folding Go-map assignments of all bindings of `adds` into `base`, as the
`for k, v := range adds { base[k] = v }` loops do. -/
def mergeIntoMap {α β : Type} [DecidableEq α]
    (base : List (α × β)) (adds : List (α × β)) : List (α × β) :=
  adds.foldl (fun m p => mapSet m p.1 p.2) base

/-- Modelled from the spec: the token alphabet of the `linedb` Durable Store
Format encoder (package `linedb`, not part of `main.go`): named scalar items,
named tables of rows with string/integer fields, blank lines and comment
lines.  Spec 4.1 requires the encoding to be a deterministic function of the
emitted item sequence, which is all the development relies on. -/
inductive Tok
  | scalar (name : String)
  | table (name : String)
  | endTable
  | str (s : String)
  | int (n : Int)
  | endRow
  | emptyLine
  | comment (s : String)
deriving DecidableEq

/-- Modelled from the spec: rendering of one encoder token to concrete text.
The precise bytes of the `linedb` package are not in `main.go`; any fixed
deterministic rendering supports the byte-stability property. -/
def renderTok : Tok → String
  | Tok.scalar n => "scalar " ++ n ++ ":"
  | Tok.table n => "table " ++ n ++ "\n"
  | Tok.endTable => "end\n"
  | Tok.str s => " \x22" ++ s ++ "\x22"
  | Tok.int n => " " ++ toString n
  | Tok.endRow => "\n"
  | Tok.emptyLine => "\n"
  | Tok.comment s => "# " ++ s ++ "\n"

/-- Modelled from the spec: `linedb.Encoder.GetBytes`, the concatenated
rendering of the emitted token sequence. -/
def render (ts : List Tok) : String :=
  String.join (ts.map renderTok)

/-- The emitted rows of a sorted-key table: the key list of the map is sorted
(Go `sort.Strings` / `sort.Sort(sortIds)`, embedded as `insertionSort` on the
linear order), and one row is emitted per key from a map lookup.  `row`
abstracts the per-row token shape of the particular table. -/
def tableEmit {α β : Type} [LinearOrder α]
    (row : α → Option β → List Tok) (m : List (α × β)) : List Tok :=
  ((List.insertionSort (fun a b => a ≤ b) (m.map Prod.fst)).map
    (fun k => row k (lookupKV m k))).flatten

/-- `addSortedMapKeyValue` from `main.go`: emits a table whose rows are the
key/value pairs of a string map in sorted key order (`sort.Strings(keys)` then
`e.AddString(key).AddString(m[key]).EndRow()`). -/
def addSortedMapKeyValue (tableName : String) (m : List (String × String)) : List Tok :=
  [Tok.table tableName]
    ++ tableEmit (fun key v => [Tok.str key, Tok.str (v.getD ""), Tok.endRow]) m
    ++ [Tok.endTable]

/-- `commentMeta` from `main.go`: the lightweight per-comment record
(poster user id and moderation state). -/
structure CommentMetaV where
  posterId : Int
  state : String
deriving DecidableEq

/-- `journalDB` from `main.go`.  The two Go maps are `Option`s of association
lists: `none` embeds a nil map (the zero value of the struct). -/
structure JournalDB where
  lastSync : String
  userMap : Option (List (Int × String))
  commentMap : Option (List (Int × CommentMetaV))
deriving DecidableEq

/-- `accountData` from `main.go`: the per-account picture state.  Its maps are
always initialized by `readAccountData`, so plain lists suffice. -/
structure AccountData where
  fileCounter : Int
  pictureDefaultUrl : String
  pictureUrlFileMap : List (String × String)
  pictureKeywordUrlMap : List (String × String)
deriving DecidableEq

/-- The byte content that `writeJournalDB` from `main.go` hands to the atomic
file writer: the `lastSync` scalar, then the `users` table with rows sorted by
user id, then the `commentMeta` table with rows sorted by comment id.  A nil
map iterates as empty.  Missing-key lookups yield the Go zero values (they do
not occur: the keys come from the map itself). -/
def writeJournalDBBytes (db : JournalDB) : String :=
  render (
    [Tok.scalar "lastSync", Tok.str db.lastSync,
     Tok.emptyLine, Tok.comment "map from user-id to user-name", Tok.table "users"]
    ++ tableEmit (fun id v => [Tok.int id, Tok.str (v.getD ""), Tok.endRow]) (db.userMap.getD [])
    ++ [Tok.endTable, Tok.emptyLine,
        Tok.comment "map from comment-id to (poster-id state)", Tok.table "commentMeta"]
    ++ tableEmit
        (fun id v => [Tok.int id, Tok.int ((v.getD ⟨0, ""⟩).posterId),
                      Tok.str ((v.getD ⟨0, ""⟩).state), Tok.endRow])
        (db.commentMap.getD [])
    ++ [Tok.endTable])

/-- The byte content that `writeAccountData` from `main.go` hands to the
atomic file writer: the `fileCounter` and `pictureDefaultUrl` scalars and the
two sorted key/value tables. -/
def writeAccountDataBytes (a : AccountData) : String :=
  render (
    [Tok.scalar "fileCounter", Tok.int a.fileCounter,
     Tok.scalar "pictureDefaultUrl", Tok.str a.pictureDefaultUrl,
     Tok.emptyLine, Tok.comment "map from url to filename"]
    ++ addSortedMapKeyValue "pictureUrlFileMap" a.pictureUrlFileMap
    ++ [Tok.emptyLine, Tok.comment "map from picture-keyword to picture-url"]
    ++ addSortedMapKeyValue "pictureKeywordUrlMap" a.pictureKeywordUrlMap)

/-- A list of decimal digit characters parsed to a number (`none` when empty
or containing a non-digit). -/
def parseDigits : List Char → Option Nat
  | [] => none
  | l =>
    if l.all (fun c => c.isDigit) then
      some (l.foldl (fun acc c => acc * 10 + (c.toNat - 48)) 0)
    else none

/-- `strconv.ParseInt(s, 10, 64)` from the Go standard library as used by
`dumpJournalPosts`: optional sign, decimal digits, final int64 range check. -/
def goParseInt64 (s : String) : Option Int :=
  match s.data with
  | '+' :: rest =>
    match parseDigits rest with
    | some n => if n ≤ 2 ^ 63 - 1 then some (n : Int) else none
    | none => none
  | '-' :: rest =>
    match parseDigits rest with
    | some n => if n ≤ 2 ^ 63 then some (-(n : Int)) else none
    | none => none
  | l =>
    match parseDigits l with
    | some n => if n ≤ 2 ^ 63 - 1 then some (n : Int) else none
    | none => none

/-- The identifier shape check of `dumpJournalPosts` from `main.go`: the item
identifier must be at least 3 bytes with a dash at index 1
(`len(item.Item) < 3 || item.Item[1] != '-'`), and the rest must parse with
`strconv.ParseInt(item.Item[2:], 10, 64)`.  Returns the type letter and the
numeric id.  Identifiers are ASCII, so Go byte indexing is embedded as
character indexing. -/
def parseSyncItemId (s : String) : Option (Char × Int) :=
  if s.data.length < 3 ∨ s.data.getD 1 ' ' ≠ '-' then none
  else
    match goParseInt64 (String.mk (s.data.drop 2)) with
    | none => none
    | some n => some (s.data.getD 0 ' ', n)

/-- `LJSyncItem` from `main.go`: one change-feed item of a `syncitems`
response. -/
structure SyncItem where
  item : String
  action : String
  time : String
deriving DecidableEq

/-- Environment of the post synchronization engine, generic over the event
payload type `E` (Go `map[string]interface{}`): the `getevents` RPC keyed by
item id (`none` = RPC error; `some` = the `events` array), and the outcome of
`writeLJEventDump` (serialization plus atomic file write; `false` = a non-nil
`*Report`). -/
structure PostsEnv (E : Type) where
  getevents : Int → Option (List E)
  writeDump : Char → Int → E → Bool

/-- The mutable per-journal post-synchronization state of `journalContext`
from `main.go`, plus two observation fields for effects Go performs on stderr
and the filesystem: `warnings` counts WARNING log lines and `written` records
the entry files successfully written (most recent first). -/
structure PostsState where
  lastSync : String
  shouldWriteDB : Bool
  newEntries : Int
  warnings : Nat
  written : List (Char × Int)
deriving DecidableEq

/-- Outcome of processing change-feed items: normal continuation, an early
`return r` with a non-nil report, or a Go runtime panic. -/
inductive ItemOut
  | ok (st : PostsState)
  | fail (st : PostsState)
  | panics
deriving DecidableEq

/-- The per-item body of the `for _, item := range syncItemsResult.SyncItems`
loop of `dumpJournalPosts` from `main.go`.  When the shape check rejects the
identifier, the warning log itself evaluates `item.Item[1]`, which panics for
identifiers shorter than 2 bytes (`.panics`); otherwise the item is skipped
with a warning and no cursor advance.  For entry items (type letter 'L') the
event is fetched (`none` or an empty `events` array is a fatal error) and
dumped; only after a successful write are `lastSync` and `shouldWriteDB`
updated.  Non-'L' items advance the cursor without a fetch. -/
def processItem {E : Type} (env : PostsEnv E) (st : PostsState) (it : SyncItem) : ItemOut :=
  if it.item.data.length < 2 then ItemOut.panics
  else
    match parseSyncItemId it.item with
    | none => ItemOut.ok { st with warnings := st.warnings + 1 }
    | some (c, itemid) =>
      if c = 'L' then
        match env.getevents itemid with
        | none => ItemOut.fail st
        | some [] => ItemOut.fail st
        | some (e :: _) =>
          if env.writeDump c itemid e then
            ItemOut.ok { st with
              written := (c, itemid) :: st.written,
              newEntries := st.newEntries + 1,
              lastSync := it.time,
              shouldWriteDB := true }
          else ItemOut.fail st
      else ItemOut.ok { st with lastSync := it.time, shouldWriteDB := true }

/-- The whole item loop of `dumpJournalPosts` over one `syncitems` page:
processes items in order, stopping at the first fatal error or panic. -/
def processItems {E : Type} (env : PostsEnv E) : PostsState → List SyncItem → ItemOut
  | st, [] => ItemOut.ok st
  | st, it :: rest =>
    match processItem env st it with
    | ItemOut.ok st' => processItems env st' rest
    | ItemOut.fail st' => ItemOut.fail st'
    | ItemOut.panics => ItemOut.panics

/-- Result of the outer page loop of `dumpJournalPosts`: `spin` marks fuel
exhaustion of the embedding (the Go loop runs until an empty page). -/
inductive PostsOut
  | ok (st : PostsState)
  | fail (st : PostsState)
  | panics
  | spin (st : PostsState)
deriving DecidableEq

/-- The outer `for` loop of `dumpJournalPosts` from `main.go`: request a page
of change-feed items for the current cursor (`syncitems`, keyed by the
`lastsync` parameter; `none` = RPC error), finish on an empty page, otherwise
process the page and repeat. -/
def dumpJournalPosts {E : Type} (env : PostsEnv E)
    (syncitems : String → Option (List SyncItem)) : Nat → PostsState → PostsOut
  | 0, st => PostsOut.spin st
  | Nat.succ fuel, st =>
    match syncitems st.lastSync with
    | none => PostsOut.fail st
    | some [] => PostsOut.ok st
    | some (it :: rest) =>
      match processItems env st (it :: rest) with
      | ItemOut.ok st' => dumpJournalPosts env syncitems fuel st'
      | ItemOut.fail st' => PostsOut.fail st'
      | ItemOut.panics => PostsOut.panics

/-- `LJCommentMeta` from `main.go`: one row of a `comment_meta` export
chunk. -/
structure LJCommentMeta where
  id : Int
  posterId : Int
  state : String
deriving DecidableEq

/-- `LJUserMap` from `main.go`: one user-directory row of a `comment_meta`
export chunk. -/
structure LJUserMapRow where
  id : Int
  user : String
deriving DecidableEq

/-- `LJCommentMetaChunk` from `main.go`: one `comment_meta` response with its
declared `maxid` target. -/
structure LJCommentMetaChunk where
  maxId : Int
  comments : List LJCommentMeta
  userMaps : List LJUserMapRow
deriving DecidableEq

/-- `LJComment` from `main.go`: one full comment of a `comment_body` export
chunk. -/
structure LJComment where
  id : Int
  posterId : Int
  state : String
  jItemId : Int
  parentId : String
  subject : String
  body : String
  date : String
deriving DecidableEq

/-- `LJCommentChunk` from `main.go`: one `comment_body` response. -/
structure LJCommentChunk where
  comments : List LJComment
deriving DecidableEq

/-- `CommentRecord` from `main.go`: one record of a per-post `C-<jitemid>`
comment file. -/
structure CommentRecord where
  id : Int
  state : String
  user : String
  parentId : String
  date : String
  subject : String
  body : String
deriving DecidableEq

/-- State of one on-disk `C-<jitemid>` comment file in the embedding: either
parseable records, or a file whose read or XML parse fails (both are fatal in
`dumpJournalComments`). -/
inductive FileContent
  | good (records : List CommentRecord)
  | bad
deriving DecidableEq

/-- Environment of the comment synchronization engine: the `comment_meta` and
`comment_body` fetches keyed by the current frontier id (the Go code requests
`startid = frontier + 1`; `none` collapses an HTTP error, body-read error or
XML unmarshal error, all fatal), and the atomic-write outcome for a comment
file (argument: `jitemid` and the records being written). -/
structure CommentsEnv where
  fetchMeta : Int → Option LJCommentMetaChunk
  fetchBody : Int → Option LJCommentChunk
  writeOk : Int → List CommentRecord → Bool

/-- The comment-map accumulation of one meta chunk: the
`newComments[c.Id] = ...` assignments of the `for i := range
metaChunk.Comments` loop of `dumpJournalComments`. -/
def metaStepMap (cs : List LJCommentMeta) (acc : List (Int × CommentMetaV)) :
    List (Int × CommentMetaV) :=
  cs.foldl (fun a c => mapSet a c.id ⟨c.posterId, c.state⟩) acc

/-- The frontier advance of one chunk: the `if frontier < c.Id { frontier =
c.Id }` updates of the same loop (shared by the meta and body passes). -/
def chunkMaxId (ids : List Int) (m : Int) : Int :=
  ids.foldl (fun a i => if a < i then i else a) m

/-- Result of the meta pagination pass: a fatal fetch error, the accumulated
comment metadata, user directory and final frontier, or fuel exhaustion of
the embedding. -/
inductive MetaOut
  | err
  | done (newComments : List (Int × CommentMetaV)) (newUsers : List (Int × String)) (newMaxId : Int)
  | spin
deriving DecidableEq

/-- The meta pass of `dumpJournalComments` from `main.go`: repeatedly fetch a
`comment_meta` chunk just above the current frontier, accumulate comment
metadata and user-directory rows, advance the frontier to the highest id
seen, and stop once the frontier reaches the chunk's declared `maxid`.  The
Go loop fuses the map and frontier updates in one pass over the chunk; the
two folds compute the same values since the accumulators are independent. -/
def metaLoop (env : CommentsEnv) : Nat → List (Int × CommentMetaV) → List (Int × String) → Int → MetaOut
  | 0, _, _, _ => MetaOut.spin
  | Nat.succ fuel, newComments, newUsers, newMaxId =>
    match env.fetchMeta newMaxId with
    | none => MetaOut.err
    | some chunk =>
      let nc := metaStepMap chunk.comments newComments
      let m := chunkMaxId (chunk.comments.map LJCommentMeta.id) newMaxId
      let nu := chunk.userMaps.foldl (fun a u => mapSet a u.id u.user) newUsers
      if m ≥ chunk.maxId then MetaOut.done nc nu m
      else metaLoop env fuel nc nu m

/-- Read from a possibly-nil Go map (`none` = nil): reading is always legal
and yields presence plus value. -/
def goMapGet {β : Type} (m : Option (List (Int × β))) (k : Int) : Option β :=
  match m with
  | none => none
  | some l => lookupKV l k

/-- Construction of the `CommentRecord` for one fetched comment in the body
pass of `dumpJournalComments`: missing state falls back to the meta-pass
result, then to the persisted comment map; a nonzero poster id is resolved
against the meta-pass user directory, then the persisted user map. -/
def buildRecord (db : JournalDB) (newComments : List (Int × CommentMetaV))
    (newUsers : List (Int × String)) (c : LJComment) : CommentRecord :=
  let r0 : CommentRecord :=
    { id := c.id, parentId := c.parentId, subject := c.subject,
      date := c.date, body := c.body, state := c.state, user := "" }
  let r1 :=
    if r0.state = "" then
      match lookupKV newComments c.id with
      | some m => { r0 with state := m.state }
      | none =>
        match goMapGet db.commentMap c.id with
        | some m => { r0 with state := m.state }
        | none => r0
    else r0
  if c.posterId ≠ 0 then
    match lookupKV newUsers c.posterId with
    | some u => { r1 with user := u }
    | none =>
      match goMapGet db.userMap c.posterId with
      | some u => { r1 with user := u }
      | none => r1
  else r1

/-- The merge of one fetched comment record into the stored records of its
parent post's comment file (`dumpJournalComments` from `main.go`): scan for
the first stored record with the same id; an identical record is a no-op
(`shouldStore = false`), a differing record is overwritten in place, and with
no match the record is appended.  Returns the resulting records and the
`shouldStore` flag. -/
def mergeComment : List CommentRecord → CommentRecord → List CommentRecord × Bool
  | [], r => ([r], true)
  | c :: rest, r =>
    if c.id = r.id then
      if c = r then (c :: rest, false) else (r :: rest, true)
    else
      let p := mergeComment rest r
      (c :: p.1, p.2)

/-- Mutable state threaded through the body pass: the fetch frontier
(`maxFetchedId`), the comment files on disk, and the `jcx.newComments`
counter. -/
structure BodyState where
  maxFetchedId : Int
  fs : List (Int × FileContent)
  newCommentsCount : Int
deriving DecidableEq

/-- Outcome of processing the comments of one body chunk. -/
inductive BRes
  | brErr (bs : BodyState)
  | brOk (bs : BodyState)
deriving DecidableEq

/-- Processing of one fetched comment in the body pass: build the record,
advance the frontier, read the parent post's comment file (missing file =
no stored records; unreadable or unparseable file = fatal), merge, and
rewrite the file through the atomic writer only when something changed. -/
def processBodyComment (env : CommentsEnv) (db : JournalDB)
    (newComments : List (Int × CommentMetaV)) (newUsers : List (Int × String))
    (bs : BodyState) (c : LJComment) : BRes :=
  let record := buildRecord db newComments newUsers c
  let bs1 : BodyState :=
    { bs with maxFetchedId := if bs.maxFetchedId < c.id then c.id else bs.maxFetchedId }
  match lookupKV bs1.fs c.jItemId with
  | some FileContent.bad => BRes.brErr bs1
  | f =>
    let stored := match f with
      | some (FileContent.good l) => l
      | _ => []
    let p := mergeComment stored record
    if p.2 then
      if env.writeOk c.jItemId p.1 then
        BRes.brOk { bs1 with
          fs := mapSet bs1.fs c.jItemId (FileContent.good p.1),
          newCommentsCount := bs1.newCommentsCount + 1 }
      else BRes.brErr bs1
    else BRes.brOk bs1

/-- The `for i := range chunk.Comments` loop of the body pass. -/
def processBodyList (env : CommentsEnv) (db : JournalDB)
    (newComments : List (Int × CommentMetaV)) (newUsers : List (Int × String)) :
    BodyState → List LJComment → BRes
  | bs, [] => BRes.brOk bs
  | bs, c :: rest =>
    match processBodyComment env db newComments newUsers bs c with
    | BRes.brErr bs' => BRes.brErr bs'
    | BRes.brOk bs' => processBodyList env db newComments newUsers bs' rest

/-- Result of the body pagination pass. -/
inductive BodyOut
  | err (bs : BodyState)
  | done (bs : BodyState)
  | spin (bs : BodyState)
deriving DecidableEq

/-- The body pass of `dumpJournalComments` from `main.go`: repeatedly fetch a
`comment_body` chunk just above the fetch frontier, process every comment of
the chunk, and stop once the frontier reaches the target established by the
meta pass. -/
def bodyLoop (env : CommentsEnv) (db : JournalDB)
    (newComments : List (Int × CommentMetaV)) (newUsers : List (Int × String))
    (target : Int) : Nat → BodyState → BodyOut
  | 0, bs => BodyOut.spin bs
  | Nat.succ fuel, bs =>
    match env.fetchBody bs.maxFetchedId with
    | none => BodyOut.err bs
    | some chunk =>
      match processBodyList env db newComments newUsers bs chunk.comments with
      | BRes.brErr bs' => BodyOut.err bs'
      | BRes.brOk bs' =>
        if bs'.maxFetchedId ≥ target then BodyOut.done bs'
        else bodyLoop env db newComments newUsers target fuel bs'

/-- The per-journal state visible to `dumpJournalComments`: the journal DB,
the `shouldWriteDB` dirty flag, the `jcx.newComments` counter and the comment
files on disk. -/
structure CommentsRunState where
  db : JournalDB
  shouldWriteDB : Bool
  newCommentsCount : Int
  fs : List (Int × FileContent)
deriving DecidableEq

/-- Result of a `dumpJournalComments` run: a non-nil `*Report` with the state
at the early return, normal completion, a Go runtime panic (assignment into a
nil map), or fuel exhaustion of the embedding. -/
inductive CommentsOut
  | err (s : CommentsRunState)
  | ok (s : CommentsRunState)
  | panics
  | spin
deriving DecidableEq

/-- The `maxStoredCommentId` computation of `dumpJournalComments`: the
largest key of the persisted comment map, starting from `-1`; a nil map
iterates as empty. -/
def maxStoredCommentId (db : JournalDB) : Int :=
  chunkMaxId ((db.commentMap.getD []).map Prod.fst) (-1)

/-- `dumpJournalComments` from `main.go`: run the meta pass from the highest
stored comment id, then the body pass toward the meta pass's final frontier,
and only if both complete without error merge the newly learned comment
metadata and user-directory entries into the journal DB and set
`shouldWriteDB`.  The merge loops panic when the corresponding map is nil and
there is at least one entry to insert; with no new entries the maps are left
untouched. -/
def dumpJournalComments (env : CommentsEnv) (fuel : Nat) (s : CommentsRunState) : CommentsOut :=
  let maxStored := maxStoredCommentId s.db
  match metaLoop env fuel [] [] maxStored with
  | MetaOut.err => CommentsOut.err s
  | MetaOut.spin => CommentsOut.spin
  | MetaOut.done nc nu newMaxId =>
    match bodyLoop env s.db nc nu newMaxId fuel
        { maxFetchedId := maxStored, fs := s.fs, newCommentsCount := s.newCommentsCount } with
    | BodyOut.err bs => CommentsOut.err { s with fs := bs.fs, newCommentsCount := bs.newCommentsCount }
    | BodyOut.spin _ => CommentsOut.spin
    | BodyOut.done bs =>
      if nc.length ≠ 0 ∨ nu.length ≠ 0 then
        if nc ≠ [] ∧ s.db.commentMap = none then CommentsOut.panics
        else if nu ≠ [] ∧ s.db.userMap = none then CommentsOut.panics
        else
          let cm := if nc.isEmpty then s.db.commentMap
                    else some (mergeIntoMap (s.db.commentMap.getD []) nc)
          let um := if nu.isEmpty then s.db.userMap
                    else some (mergeIntoMap (s.db.userMap.getD []) nu)
          CommentsOut.ok
            { db := { lastSync := s.db.lastSync, userMap := um, commentMap := cm },
              shouldWriteDB := true,
              newCommentsCount := bs.newCommentsCount, fs := bs.fs }
      else CommentsOut.ok { s with fs := bs.fs, newCommentsCount := bs.newCommentsCount }

/-- Outcome of reading one file: absent, a read failure that is not
not-exist (fatal), or its (already decoded) content. -/
inductive FileRead (α : Type)
  | missing
  | failure
  | found (a : α)
deriving DecidableEq

/-- Decoded content of a current-format `journal.linedb` file.  The `linedb`
decoding itself is modelled from the spec (the package is not in `main.go`):
`lastSync` is the scalar when present, and the two tables are given as row
lists in file order. -/
structure JournalFileData where
  lastSync : Option String
  users : List (Int × String)
  commentMeta : List (Int × CommentMetaV)
deriving DecidableEq

/-- Environment of `readJournalDB` from `main.go`: the current-format DB file
(`failure` also covers a `linedb` decode error; an existing empty file
behaves exactly like a missing one and is folded into `missing`), the three
legacy Python files (`.last` as its first line; `comment.meta` and `user.map`
as their already-unpickled entries, the unpickling being the external
legacy-import collaborator — `failure` covers open, unpickle and shape
errors), and
the outcome of the conversion-time `writeJournalDB`. -/
structure ReadDBEnv where
  journalFile : FileRead JournalFileData
  lastFile : FileRead String
  commentMetaFile : FileRead (List (Int × CommentMetaV))
  userMapFile : FileRead (List (Int × String))
  writeOk : Bool

/-- The journal DB together with the remembered `origDbLastSync`. -/
structure ReadDBState where
  db : JournalDB
  origDbLastSync : String
deriving DecidableEq

/-- Result of `readJournalDB`. -/
inductive ReadDBOut
  | err
  | ok (s : ReadDBState)
deriving DecidableEq

/-- `readJournalDB` from `main.go`.  With current-format DB data present, the
user and comment maps are allocated and filled from the decoded tables.  With
no (or empty) DB data, the legacy conversion path runs
`readPythonLastRunFile`, `readPythonCommentMeta` and `readPythonUserMap` —
each of which returns early, leaving its map untouched (hence possibly nil),
when its file does not exist — and then writes the current-format DB.
`db0` is the caller's `jcx.db`, the Go zero value on every call site. -/
def readJournalDB (env : ReadDBEnv) (db0 : JournalDB) : ReadDBOut :=
  match env.journalFile with
  | FileRead.failure => ReadDBOut.err
  | FileRead.found content =>
    let db1 : JournalDB :=
      { lastSync := content.lastSync.getD db0.lastSync,
        userMap := some (mergeIntoMap [] content.users),
        commentMap := some (mergeIntoMap [] content.commentMeta) }
    ReadDBOut.ok ⟨db1, db1.lastSync⟩
  | FileRead.missing =>
    let db1 : JournalDB := { db0 with lastSync := "" }
    match env.lastFile with
    | FileRead.failure => ReadDBOut.err
    | lf =>
      let db2 := match lf with
        | FileRead.found s => { db1 with lastSync := s }
        | _ => db1
      match env.commentMetaFile with
      | FileRead.failure => ReadDBOut.err
      | cf =>
        let db3 := match cf with
          | FileRead.found entries => { db2 with commentMap := some (mergeIntoMap [] entries) }
          | _ => db2
        match env.userMapFile with
        | FileRead.failure => ReadDBOut.err
        | uf =>
          let db4 := match uf with
            | FileRead.found entries => { db3 with userMap := some (mergeIntoMap [] entries) }
            | _ => db3
          if env.writeOk then ReadDBOut.ok ⟨db4, db4.lastSync⟩ else ReadDBOut.err

/-- `convertPictureKeywordToFilename` from `main.go`: every character outside
letters, digits, underscore and dash is replaced by an underscore.  The Go
regexp uses the Unicode letter/number classes; the embedding uses
`Char.isAlphanum`, which agrees on ASCII (no verified property depends on the
exact character class). -/
def convertPictureKeywordToFilename (keyword : String) : String :=
  String.mk (keyword.data.map fun c =>
    if c.isAlphanum ∨ c = '_' ∨ c = '-' then c else '_')

/-- Environment of the picture synchronization engine `dumpAccountData` /
`fetchAnsStorePictureUrl` from `main.go`: the parallel keyword array of the
login response, and oracles for the picture download (`none` collapses an
`http.Get`, body-read or body-close error, all of which Go folds into one
non-fatal `err`; `some` carries the body bytes and the Content-Type header),
the `mime.ExtensionsByType` lookup (`none` = error) and the atomic file write
outcome (argument: file name and data). -/
structure PicEnv where
  keywords : List String
  download : String → Option (String × String)
  extensionsByType : String → Option (List String)
  writeOk : String → String → Bool

/-- Observable outcome of one `fetchAnsStorePictureUrl` call: the account
state after the call, whether the call set the enclosing `updated` flag,
whether an HTTP download was attempted, whether a WARNING line was logged, and
whether a non-nil `*Report` was returned (aborting the run). -/
structure PicOutcome where
  st : AccountData
  updated : Bool
  downloadAttempted : Bool
  warned : Bool
  err : Bool
deriving DecidableEq

/-- `fetchAnsStorePictureUrl` from `main.go` (the closure inside
`dumpAccountData`).  `keywordIndex` is `-1` for the default picture.  The Go
caller guarantees `keywordIndex < len(keywords)`; the embedding uses `getD`
with the zero value `""` for that access. -/
def fetchAnsStorePictureUrl (env : PicEnv) (st : AccountData)
    (keywordIndex : Int) (url : String) : PicOutcome :=
  if url = "" ∨ lookupStrD st.pictureUrlFileMap url ≠ "" then
    ⟨st, false, false, false, false⟩
  else
    let keyword := if keywordIndex ≥ 0 then env.keywords.getD keywordIndex.toNat "" else ""
    if keywordIndex ≥ 0 ∧ keyword = "" then
      ⟨st, false, false, true, false⟩
    else
      match env.download url with
      | none => ⟨st, false, true, true, false⟩
      | some (data, contentType) =>
        let extension :=
          if contentType ≠ "" then
            match env.extensionsByType contentType with
            | some (e :: _) => e
            | _ => ".bin"
          else ".bin"
        let separator := if keyword ≠ "" then "-" else ""
        let fileName := if keyword ≠ "" then convertPictureKeywordToFilename keyword else ""
        let counter := st.fileCounter + 1
        let pictureFile :=
          "user-picture-" ++ toString counter ++ separator ++ fileName ++ extension
        if env.writeOk pictureFile data then
          let st2 : AccountData :=
            { st with
              fileCounter := counter,
              pictureUrlFileMap := mapSet st.pictureUrlFileMap url pictureFile }
          let st3 :=
            if keyword = "" then { st2 with pictureDefaultUrl := url }
            else { st2 with pictureKeywordUrlMap := mapSet st2.pictureKeywordUrlMap keyword url }
          ⟨st3, true, true, false, false⟩
        else
          ⟨{ st with fileCounter := counter }, false, true, false, true⟩


/-- Absence of unreadable or unparseable comment files: the body pass aborts
on the first such file. -/
def goodFs (fs : List (Int × FileContent)) : Prop :=
  ∀ p ∈ fs, p.2 ≠ FileContent.bad

/-- Concrete picture environment: only the URL `"u"` downloads. -/
def picEnvCex : PicEnv :=
  ⟨[], fun u => if u = "u" then some ("DATA", "") else none, fun _ => none, fun _ _ => true⟩

/-- Concrete account state whose URL map contains `"u"` with an empty
filename. -/
def picStCex : AccountData := ⟨0, "", [("u", "")], []⟩

/-- Concrete account state whose URL map contains `"u"` with filename
`"f.png"`. -/
def picStKnown : AccountData := ⟨0, "", [("u", "f.png")], []⟩

/-- Concrete account state with empty maps. -/
def picStEmpty : AccountData := ⟨0, "", [], []⟩

/-- Concrete picture environment where every download fails. -/
def picEnvFail : PicEnv := ⟨["kw"], fun _ => none, fun _ => none, fun _ _ => true⟩

/-- Concrete picture environment whose keyword array holds one empty
keyword. -/
def picEnvEmptyKw : PicEnv := ⟨[""], fun _ => some ("D", ""), fun _ => none, fun _ _ => true⟩

/-- Concrete posts environment over the trivial payload: item 7 fetches, all
other fetches fail, all writes succeed. -/
def postsEnvW : PostsEnv Unit :=
  ⟨fun id => if id = 7 then some [()] else none, fun _ _ _ => true⟩

/-- The zero `PostsState` of a fresh `journalContext`. -/
def postsSt0 : PostsState := ⟨"", false, 0, 0, []⟩

/-- Concrete comment environment where the meta pass learns comment 5 and
user 7 in one chunk and every body fetch fails. -/
def cmtEnvCex : CommentsEnv :=
  { fetchMeta := fun m => if m = -1 then some ⟨5, [⟨5, 7, "A"⟩], [⟨7, "alice"⟩]⟩ else none,
    fetchBody := fun _ => none,
    writeOk := fun _ _ => true }

/-- Concrete run state with initialized empty maps, clean flag and no
files. -/
def cmtRunEmpty : CommentsRunState := ⟨⟨"", some [], some []⟩, false, 0, []⟩

/-- Concrete comment environment for a fully successful one-comment run. -/
def cmtEnvOkRun : CommentsEnv :=
  { fetchMeta := fun m => if m = -1 then some ⟨1, [⟨1, 7, "A"⟩], [⟨7, "alice"⟩]⟩ else none,
    fetchBody := fun m => if m = -1 then some ⟨[⟨1, 7, "A", 3, "", "s", "b", "d"⟩]⟩ else none,
    writeOk := fun _ _ => true }

/-- Concrete comment environment realizing the spec scenario: every chunk
declares target 105 and carries the single comment just above the requested
frontier. -/
def c4env : CommentsEnv :=
  { fetchMeta := fun m => some ⟨105, [⟨if m < 105 then m + 1 else 105, 0, ""⟩], []⟩,
    fetchBody := fun m => some ⟨[⟨if m < 105 then m + 1 else 105, 0, "", 1, "", "", "", ""⟩]⟩,
    writeOk := fun _ _ => true }

/-- The fresh-journal read environment: no current-format DB file and none of
the three legacy Python files. -/
def freshReadEnv : ReadDBEnv :=
  ⟨FileRead.missing, FileRead.missing, FileRead.missing, FileRead.missing, true⟩

/-- The Go zero value of `journalDB`: empty cursor and nil maps. -/
def jdbZero : JournalDB := ⟨"", none, none⟩

/-- Concrete comment environment whose meta pass learns comment 1 (no users)
and whose body pass stores it successfully. -/
def cmtEnvC9 : CommentsEnv :=
  { fetchMeta := fun m => if m = -1 then some ⟨1, [⟨1, 7, "A"⟩], []⟩ else none,
    fetchBody := fun m => if m = -1 then some ⟨[⟨1, 7, "A", 3, "", "s", "b", "d"⟩]⟩ else none,
    writeOk := fun _ _ => true }

theorem lookupKV_perm {α β : Type} [DecidableEq α] {l1 l2 : List (α × β)}
    (h : l1.Perm l2) (hn : (l1.map Prod.fst).Nodup) (k : α) :
    lookupKV l1 k = lookupKV l2 k := by
  induction h with
  | nil => rfl
  | cons x h ih =>
    have hn' : ((_ : List (α × β)).map Prod.fst).Nodup := (List.nodup_cons.mp hn).2
    show lookupKV (x :: _) k = lookupKV (x :: _) k
    by_cases hx : x.1 = k
    · simp [lookupKV, hx]
    · simp only [lookupKV, hx, if_neg hx]
      exact ih hn'
  | swap x y l =>
    have hxy : y.1 ≠ x.1 := by
      simp only [List.map_cons, List.nodup_cons, List.mem_cons] at hn
      exact fun he => hn.1 (Or.inl he)
    by_cases h1 : y.1 = k
    · by_cases h2 : x.1 = k
      · exact absurd (h1.trans h2.symm) hxy
      · simp [lookupKV, h1, h2]
    · by_cases h2 : x.1 = k
      · simp [lookupKV, h1, h2]
      · simp [lookupKV, h1, h2]
  | trans h1 h2 ih1 ih2 =>
    have hn2 := ((h1.map Prod.fst).nodup_iff).mp hn
    exact (ih1 hn).trans (ih2 hn2)

theorem sortedKeys_perm_eq {α : Type} [LinearOrder α] {k1 k2 : List α}
    (h : k1.Perm k2) :
    List.insertionSort (fun a b => a ≤ b) k1 = List.insertionSort (fun a b => a ≤ b) k2 := by
  haveI : IsAntisymm α (fun a b => a ≤ b) := ⟨fun a b h1 h2 => le_antisymm h1 h2⟩
  haveI : IsTotal α (fun a b => a ≤ b) := ⟨le_total⟩
  haveI : IsTrans α (fun a b => a ≤ b) := ⟨fun a b c => le_trans⟩
  have hs1 := List.sorted_insertionSort (fun a b => a ≤ b) k1
  have hs2 := List.sorted_insertionSort (fun a b => a ≤ b) k2
  exact List.eq_of_perm_of_sorted
    ((List.perm_insertionSort _ k1).trans (h.trans (List.perm_insertionSort _ k2).symm)) hs1 hs2

theorem tableEmit_perm {α β : Type} [LinearOrder α]
    (row : α → Option β → List Tok) {l1 l2 : List (α × β)}
    (hp : l1.Perm l2) (hn : (l1.map Prod.fst).Nodup) :
    tableEmit row l1 = tableEmit row l2 := by
  unfold tableEmit
  rw [sortedKeys_perm_eq (hp.map Prod.fst)]
  have hf : (fun k => row k (lookupKV l1 k)) = (fun k => row k (lookupKV l2 k)) :=
    funext fun k => by rw [lookupKV_perm hp hn k]
  rw [hf]


/-- Claim C6 (amended): for every picture URL recorded in the URL-to-filename
map with a non-empty filename, `fetchAnsStorePictureUrl` performs no
download, does not increment the file counter, and leaves the whole account
state unchanged.  (The Go guard is `pictureUrlFileMap[url] != ""`, so presence
as a key with an empty recorded filename does not suppress the fetch; see the
counterexample.) -/
theorem pictureDedupNonEmptyEntry (env : PicEnv) (st : AccountData)
    (keywordIndex : Int) (url : String)
    (h : lookupStrD st.pictureUrlFileMap url ≠ "") :
    fetchAnsStorePictureUrl env st keywordIndex url = ⟨st, false, false, false, false⟩ := by
  unfold fetchAnsStorePictureUrl
  rw [if_pos (Or.inr h)]

theorem pictureDedupNonEmptyEntry_witness :
    lookupStrD picStKnown.pictureUrlFileMap "u" ≠ "" ∧
    fetchAnsStorePictureUrl picEnvCex picStKnown (-1) "u" =
      ⟨picStKnown, false, false, false, false⟩ :=
  ⟨by decide, pictureDedupNonEmptyEntry picEnvCex picStKnown (-1) "u" (by decide)⟩

/-- Claim C6, counterexample to the claim as stated: the URL `"u"` is present
as a key of the URL-to-filename map (with an empty recorded filename), yet
the call attempts the download, increments the file counter and rewrites the
account state. -/
theorem pictureDedupKeyPresence_cex :
    "u" ∈ picStCex.pictureUrlFileMap.map Prod.fst ∧
    fetchAnsStorePictureUrl picEnvCex picStCex (-1) "u" =
      ⟨⟨1, "u", [("u", "user-picture-1.bin")], []⟩, true, true, false, false⟩ := by
  constructor
  · decide
  · decide

/-- Claim C7: for every picture URL that is not yet recorded (and reaches the
download), a failing download or body read logs a warning and returns a nil
report — the run continues — with the URL not added to the map and the file
counter not incremented, so the account state is exactly the input state. -/
theorem pictureDownloadFailureSkipped (env : PicEnv) (st : AccountData)
    (keywordIndex : Int) (url : String)
    (hurl : url ≠ "") (habsent : lookupStrD st.pictureUrlFileMap url = "")
    (hkw : keywordIndex ≥ 0 → env.keywords.getD keywordIndex.toNat "" ≠ "")
    (hdl : env.download url = none) :
    fetchAnsStorePictureUrl env st keywordIndex url = ⟨st, false, true, true, false⟩ := by
  have hc1 : ¬(url = "" ∨ lookupStrD st.pictureUrlFileMap url ≠ "") := by
    simp [hurl, habsent]
  have hc2 : ¬(keywordIndex ≥ 0 ∧
      (if keywordIndex ≥ 0 then env.keywords.getD keywordIndex.toNat "" else "") = "") := by
    intro hc
    exact hkw hc.1 (by simpa [hc.1] using hc.2)
  simp only [fetchAnsStorePictureUrl, if_neg hc1, if_neg hc2, hdl]

theorem pictureDownloadFailureSkipped_witness :
    ("z" : String) ≠ "" ∧ lookupStrD picStEmpty.pictureUrlFileMap "z" = "" ∧
    picEnvFail.download "z" = none ∧
    fetchAnsStorePictureUrl picEnvFail picStEmpty 0 "z" = ⟨picStEmpty, false, true, true, false⟩ :=
  ⟨by decide, by decide, rfl,
    pictureDownloadFailureSkipped picEnvFail picStEmpty 0 "z" (by decide) (by decide)
      (fun _ => by decide) rfl⟩

/-- Claim C10: a keyword-tagged picture whose keyword string is empty is
skipped with a warning before any download: the account state is returned
unchanged even when the URL is unknown. -/
theorem emptyKeywordSkipped (env : PicEnv) (st : AccountData)
    (keywordIndex : Int) (url : String)
    (hurl : url ≠ "") (habsent : lookupStrD st.pictureUrlFileMap url = "")
    (hki : keywordIndex ≥ 0) (hkw : env.keywords.getD keywordIndex.toNat "" = "") :
    fetchAnsStorePictureUrl env st keywordIndex url = ⟨st, false, false, true, false⟩ := by
  have hc1 : ¬(url = "" ∨ lookupStrD st.pictureUrlFileMap url ≠ "") := by
    simp [hurl, habsent]
  have hc2 : keywordIndex ≥ 0 ∧
      (if keywordIndex ≥ 0 then env.keywords.getD keywordIndex.toNat "" else "") = "" :=
    ⟨hki, by simpa [hki] using hkw⟩
  simp only [fetchAnsStorePictureUrl, if_neg hc1, if_pos hc2]

theorem emptyKeywordSkipped_witness :
    ("z" : String) ≠ "" ∧ lookupStrD picStEmpty.pictureUrlFileMap "z" = "" ∧
    picEnvEmptyKw.keywords.getD 0 "" = "" ∧
    fetchAnsStorePictureUrl picEnvEmptyKw picStEmpty 0 "z" =
      ⟨picStEmpty, false, false, true, false⟩ :=
  ⟨by decide, by decide, by decide,
    emptyKeywordSkipped picEnvEmptyKw picStEmpty 0 "z" (by decide) (by decide)
      (by decide) (by decide)⟩

theorem mergeComment_no_match (stored : List CommentRecord) (r : CommentRecord)
    (h : ∀ c ∈ stored, c.id ≠ r.id) :
    mergeComment stored r = (stored ++ [r], true) := by
  induction stored with
  | nil => rfl
  | cons c rest ih =>
    have hc : c.id ≠ r.id := h c (List.mem_cons_self c rest)
    simp only [mergeComment, if_neg hc, ih (fun x hx => h x (List.mem_cons_of_mem c hx)),
      List.cons_append]

theorem mergeComment_mem (stored : List CommentRecord) (r : CommentRecord)
    (hn : (stored.map CommentRecord.id).Nodup) (hr : r ∈ stored) :
    mergeComment stored r = (stored, false) := by
  induction stored with
  | nil => cases hr
  | cons c rest ih =>
    simp only [List.map_cons, List.nodup_cons] at hn
    rcases List.mem_cons.mp hr with he | hrest
    · subst he
      simp [mergeComment]
    · have hcid : c.id ≠ r.id := by
        intro he
        exact hn.1 (he ▸ List.mem_map_of_mem CommentRecord.id hrest)
      simp only [mergeComment, if_neg hcid, ih hn.2 hrest]

theorem mapReplaceId_eq (r : CommentRecord) (l : List CommentRecord)
    (h : ∀ x ∈ l, x.id ≠ r.id) :
    (l.map fun x => if x.id = r.id then r else x) = l := by
  induction l with
  | nil => rfl
  | cons a t ih =>
    simp only [List.map_cons, if_neg (h a (List.mem_cons_self a t)),
      ih (fun x hx => h x (List.mem_cons_of_mem a hx))]

theorem mergeComment_overwrite (stored : List CommentRecord) (r : CommentRecord)
    (hn : (stored.map CommentRecord.id).Nodup)
    (c : CommentRecord) (hc : c ∈ stored) (hid : c.id = r.id) (hne : c ≠ r) :
    mergeComment stored r = (stored.map fun x => if x.id = r.id then r else x, true) := by
  induction stored with
  | nil => cases hc
  | cons c0 rest ih =>
    simp only [List.map_cons, List.nodup_cons] at hn
    rcases List.mem_cons.mp hc with he | hrest
    · subst he
      have hrest_ne : ∀ x ∈ rest, x.id ≠ r.id := by
        intro x hx he
        exact hn.1 ((hid.trans he.symm) ▸ List.mem_map_of_mem CommentRecord.id hx)
      simp only [mergeComment, if_pos hid, if_neg hne, List.map_cons, if_pos hid,
        mapReplaceId_eq r rest hrest_ne]
    · have hc0 : c0.id ≠ r.id := by
        intro he
        refine hn.1 ?_
        rw [he, ← hid]
        exact List.mem_map_of_mem CommentRecord.id hrest
      simp only [mergeComment, if_neg hc0, ih hn.2 hrest, List.map_cons, if_neg hc0]

theorem mergeComment_ids (stored : List CommentRecord) (r : CommentRecord) :
    (mergeComment stored r).1.map CommentRecord.id = stored.map CommentRecord.id ∨
    (mergeComment stored r).1.map CommentRecord.id = stored.map CommentRecord.id ++ [r.id] := by
  induction stored with
  | nil => right; rfl
  | cons c rest ih =>
    by_cases hc : c.id = r.id
    · by_cases he : c = r
      · left; simp [mergeComment, hc, he]
      · left; simp [mergeComment, hc, he, List.map_cons]
    · rcases ih with h | h
      · left; simp [mergeComment, hc, List.map_cons, h]
      · right; simp [mergeComment, hc, List.map_cons, h]

theorem mergeComment_self_mem (stored : List CommentRecord) (r : CommentRecord) :
    r ∈ (mergeComment stored r).1 := by
  induction stored with
  | nil => exact List.mem_singleton_self r
  | cons c rest ih =>
    by_cases hc : c.id = r.id
    · by_cases he : c = r
      · simp [mergeComment, hc, he]
      · simp [mergeComment, hc, he]
    · simp only [mergeComment, if_neg hc]
      exact List.mem_cons_of_mem c ih

theorem mergeComment_nodup (stored : List CommentRecord) (r : CommentRecord)
    (hn : (stored.map CommentRecord.id).Nodup) :
    ((mergeComment stored r).1.map CommentRecord.id).Nodup := by
  induction stored with
  | nil => simp [mergeComment]
  | cons c rest ih =>
    simp only [List.map_cons, List.nodup_cons] at hn
    by_cases hc : c.id = r.id
    · by_cases he : c = r
      · simp only [mergeComment, if_pos hc, if_pos he, List.map_cons, List.nodup_cons]
        exact ⟨hn.1, hn.2⟩
      · simp only [mergeComment, if_pos hc, if_neg he, List.map_cons, List.nodup_cons]
        exact ⟨hc ▸ hn.1, hn.2⟩
    · simp only [mergeComment, if_neg hc, List.map_cons, List.nodup_cons]
      refine ⟨?_, ih hn.2⟩
      rcases mergeComment_ids rest r with h | h
      · rw [h]; exact hn.1
      · rw [h]
        intro hmem
        rcases List.mem_append.mp hmem with h1 | h2
        · exact hn.1 h1
        · exact hc (List.mem_singleton.mp h2)

theorem mergeComment_flag_iff (stored : List CommentRecord) (r : CommentRecord)
    (hn : (stored.map CommentRecord.id).Nodup) :
    ((mergeComment stored r).2 = false ↔ r ∈ stored) := by
  constructor
  · intro hfl
    induction stored with
    | nil => simp [mergeComment] at hfl
    | cons c rest ih =>
      simp only [List.map_cons, List.nodup_cons] at hn
      by_cases hc : c.id = r.id
      · by_cases he : c = r
        · exact he ▸ List.mem_cons_self c rest
        · simp [mergeComment, hc, he] at hfl
      · simp only [mergeComment, if_neg hc] at hfl
        exact List.mem_cons_of_mem c (ih hn.2 hfl)
  · intro hr
    rw [mergeComment_mem stored r hn hr]

/-- Claim C3: merging a fetched comment into its parent post's stored
records (ids unique in the stored file): with no stored record of the same id
the record is appended (and written); with an identical stored record nothing
changes and the file is not written — so merging the same unchanged comment
twice is a no-op; with a differing stored record of the same id exactly that
record is overwritten in place (and written); ids stay unique; and the write
flag is cleared exactly when the fetched record is already stored
verbatim. -/
theorem mergeCommentCorrect (stored : List CommentRecord) (r : CommentRecord) :
    ((∀ c ∈ stored, c.id ≠ r.id) → mergeComment stored r = (stored ++ [r], true))
    ∧ ((stored.map CommentRecord.id).Nodup → r ∈ stored →
        mergeComment stored r = (stored, false))
    ∧ ((stored.map CommentRecord.id).Nodup → ∀ c ∈ stored, c.id = r.id → c ≠ r →
        mergeComment stored r = (stored.map fun x => if x.id = r.id then r else x, true))
    ∧ ((stored.map CommentRecord.id).Nodup →
        ((mergeComment stored r).1.map CommentRecord.id).Nodup)
    ∧ ((stored.map CommentRecord.id).Nodup →
        mergeComment (mergeComment stored r).1 r = ((mergeComment stored r).1, false))
    ∧ ((stored.map CommentRecord.id).Nodup →
        ((mergeComment stored r).2 = false ↔ r ∈ stored)) :=
  ⟨mergeComment_no_match stored r,
   mergeComment_mem stored r,
   fun hn c hc hid hne => mergeComment_overwrite stored r hn c hc hid hne,
   mergeComment_nodup stored r,
   fun hn => mergeComment_mem (mergeComment stored r).1 r (mergeComment_nodup stored r hn)
     (mergeComment_self_mem stored r),
   mergeComment_flag_iff stored r⟩

theorem mergeCommentCorrect_witness :
    (([⟨7, "A", "v", "", "d", "s", "b"⟩] : List CommentRecord).map CommentRecord.id).Nodup ∧
    (∀ c ∈ ([⟨7, "A", "v", "", "d", "s", "b"⟩] : List CommentRecord),
      c.id ≠ (⟨5, "A", "u", "", "d", "s", "b"⟩ : CommentRecord).id) ∧
    mergeComment [⟨7, "A", "v", "", "d", "s", "b"⟩] ⟨5, "A", "u", "", "d", "s", "b"⟩ =
      ([⟨7, "A", "v", "", "d", "s", "b"⟩, ⟨5, "A", "u", "", "d", "s", "b"⟩], true) ∧
    mergeComment
      (mergeComment [⟨7, "A", "v", "", "d", "s", "b"⟩] ⟨5, "A", "u", "", "d", "s", "b"⟩).1
      ⟨5, "A", "u", "", "d", "s", "b"⟩ =
      ((mergeComment [⟨7, "A", "v", "", "d", "s", "b"⟩] ⟨5, "A", "u", "", "d", "s", "b"⟩).1,
        false) :=
  ⟨by decide, by decide,
   (mergeCommentCorrect [⟨7, "A", "v", "", "d", "s", "b"⟩] ⟨5, "A", "u", "", "d", "s", "b"⟩).1
     (by decide),
   (mergeCommentCorrect [⟨7, "A", "v", "", "d", "s", "b"⟩]
     ⟨5, "A", "u", "", "d", "s", "b"⟩).2.2.2.2.1 (by decide)⟩

/-- Claim C8, evaluated at the failing input: an item identifier of length
shorter than 2 bytes makes `dumpJournalPosts` panic inside the warning log
expression `item.Item[1]` instead of warning and skipping, while malformed
identifiers of length at least 2 are warned about and skipped with no cursor
advance, and later items of the page are still processed. -/
theorem malformedSyncIdOutcomes :
    processItem postsEnvW postsSt0 ⟨"", "create", "2020-01-01"⟩ = ItemOut.panics ∧
    processItem postsEnvW postsSt0 ⟨"x?", "create", "2020-01-01"⟩ =
      ItemOut.ok ⟨"", false, 0, 1, []⟩ ∧
    processItems postsEnvW postsSt0 [⟨"x?", "create", "t1"⟩, ⟨"P-3", "create", "t2"⟩] =
      ItemOut.ok ⟨"t2", true, 0, 1, []⟩ := by
  refine ⟨rfl, ?_, ?_⟩ <;> decide

/-- Claim C9, evaluated at the failing input: on a fresh journal — no
current-format `journal.linedb` and none of the legacy Python files —
`readJournalDB` succeeds but leaves both `userMap` and `commentMap` nil, and
the first `dumpJournalComments` run that learns a comment then panics in the
end-of-run merge by assigning into the nil map. -/
theorem freshJournalNilMaps :
    readJournalDB freshReadEnv jdbZero = ReadDBOut.ok ⟨jdbZero, ""⟩ ∧
    (jdbZero.userMap = none ∧ jdbZero.commentMap = none) ∧
    dumpJournalComments cmtEnvC9 3 ⟨jdbZero, false, 0, []⟩ = CommentsOut.panics := by
  refine ⟨rfl, ⟨rfl, rfl⟩, ?_⟩
  decide

/-- Claim C2, counterexample to the claim as stated: the meta pass learns
comment 5 and user 7, the body pass then fails (network error), and
`dumpJournalComments` returns with the journal DB unchanged — the learned
entries are not merged and the state is not marked dirty. -/
theorem commentsMergeSkippedOnFailure_cex :
    metaLoop cmtEnvCex 3 [] [] (-1) = MetaOut.done [(5, ⟨7, "A"⟩)] [(7, "alice")] 5 ∧
    dumpJournalComments cmtEnvCex 3 cmtRunEmpty = CommentsOut.err cmtRunEmpty ∧
    cmtRunEmpty.shouldWriteDB = false ∧
    cmtRunEmpty.db.commentMap = some [] ∧ cmtRunEmpty.db.userMap = some [] := by
  refine ⟨?_, ?_, rfl, rfl, rfl⟩ <;> decide

theorem parseSyncItemId_min_length (s : String) (x : Char × Int)
    (h : parseSyncItemId s = some x) : ¬ s.data.length < 2 := by
  unfold parseSyncItemId at h
  by_cases hc : s.data.length < 3 ∨ s.data.getD 1 ' ' ≠ '-'
  · rw [if_pos hc] at h; cases h
  · push_neg at hc
    omega

theorem processItem_fail_eq {E : Type} (env : PostsEnv E) (st : PostsState)
    (it : SyncItem) (st' : PostsState)
    (h : processItem env st it = ItemOut.fail st') : st' = st := by
  unfold processItem at h
  by_cases hlen : it.item.data.length < 2
  · rw [if_pos hlen] at h; cases h
  · rw [if_neg hlen] at h
    cases hp : parseSyncItemId it.item with
    | none => rw [hp] at h; cases h
    | some p =>
      rw [hp] at h
      by_cases hL : p.1 = 'L'
      · simp only [hL, if_pos rfl] at h
        cases hge : env.getevents p.2 with
        | none => rw [hge] at h; injection h with h1; exact h1.symm
        | some evs =>
          rw [hge] at h
          cases evs with
          | nil => injection h with h1; exact h1.symm
          | cons e es =>
            by_cases hw : env.writeDump p.1 p.2 e
            · rw [hL] at hw
              simp only [hL, if_pos hw] at h
              cases h
            · rw [hL] at hw
              simp only [hL, if_neg hw] at h
              injection h with h1; exact h1.symm
      · simp only [if_neg hL] at h
        cases h

theorem processItem_ok_advanced {E : Type} (env : PostsEnv E) (st : PostsState)
    (it : SyncItem) (st' : PostsState)
    (h : processItem env st it = ItemOut.ok st') (hne : st'.lastSync ≠ st.lastSync) :
    ∃ c id, parseSyncItemId it.item = some (c, id) ∧ st'.lastSync = it.time ∧
      st'.shouldWriteDB = true ∧
      (c = 'L' → ∃ e es, env.getevents id = some (e :: es) ∧ env.writeDump c id e = true ∧
        st'.written = (c, id) :: st.written) := by
  unfold processItem at h
  split at h
  · cases h
  · split at h
    · injection h with h1
      rw [← h1] at hne
      exact absurd rfl hne
    · rename_i c id hp
      split at h
      · rename_i hL
        subst hL
        split at h
        · cases h
        · cases h
        · rename_i e es hge
          split at h
          · rename_i hw
            injection h with h1
            exact ⟨'L', id, hp, by rw [← h1], by rw [← h1],
              fun _ => ⟨e, es, hge, hw, by rw [← h1]⟩⟩
          · cases h
      · rename_i hL
        injection h with h1
        exact ⟨c, id, hp, by rw [← h1], by rw [← h1], fun hL2 => absurd hL2 hL⟩

theorem processItem_entry_success {E : Type} (env : PostsEnv E) (st : PostsState)
    (it : SyncItem) (id : Int) (e : E) (es : List E)
    (hp : parseSyncItemId it.item = some ('L', id))
    (hge : env.getevents id = some (e :: es))
    (hw : env.writeDump 'L' id e = true) :
    processItem env st it = ItemOut.ok
      { st with
        written := ('L', id) :: st.written,
        newEntries := st.newEntries + 1, lastSync := it.time, shouldWriteDB := true } := by
  unfold processItem
  rw [if_neg (parseSyncItemId_min_length it.item ('L', id) hp), hp]
  simp [hge, hw]

theorem processItems_fail_split {E : Type} (env : PostsEnv E) (st : PostsState)
    (items : List SyncItem) (st' : PostsState)
    (h : processItems env st items = ItemOut.fail st') :
    ∃ pre it post, items = pre ++ it :: post ∧ processItems env st pre = ItemOut.ok st' ∧
      processItem env st' it = ItemOut.fail st' := by
  induction items generalizing st with
  | nil => cases h
  | cons it rest ih =>
    unfold processItems at h
    cases hpi : processItem env st it with
    | ok st1 =>
      rw [hpi] at h
      obtain ⟨pre, it2, post, heq, hpre, hfail⟩ := ih st1 h
      refine ⟨it :: pre, it2, post, by rw [heq]; rfl, ?_, hfail⟩
      show processItems env st (it :: pre) = ItemOut.ok st'
      unfold processItems
      rw [hpi]
      exact hpre
    | fail st1 =>
      rw [hpi] at h
      injection h with h1
      subst h1
      have hst : st1 = st := processItem_fail_eq env st it st1 hpi
      refine ⟨[], it, rest, rfl, ?_, ?_⟩
      · show ItemOut.ok st = ItemOut.ok st1
        rw [hst]
      · rw [hst]
        rw [hst] at hpi
        exact hpi
    | panics => rw [hpi] at h; cases h

/-- Claim C1: in `dumpJournalPosts`, an item whose processing succeeds
advances the cursor to that item's timestamp only with, for entry items, a
successful event fetch and a successful entry-file write (recorded in
`written`); a fetch or write failure returns immediately with the state — in
particular the cursor — unchanged by the failing item; a well-formed entry
item with successful fetch and write advances the cursor and records the
file; and when the page loop fails, the resulting state is exactly the state
after the successfully processed prefix, so the persisted cursor stops just
before the failing item and a rerun starting there re-fetches it and not the
already-committed items. -/
theorem postsCursorDiscipline :
    (∀ (E : Type) (env : PostsEnv E) (st : PostsState) (it : SyncItem) (st' : PostsState),
      processItem env st it = ItemOut.ok st' → st'.lastSync ≠ st.lastSync →
      ∃ c id, parseSyncItemId it.item = some (c, id) ∧ st'.lastSync = it.time ∧
        st'.shouldWriteDB = true ∧
        (c = 'L' → ∃ e es, env.getevents id = some (e :: es) ∧ env.writeDump c id e = true ∧
          st'.written = (c, id) :: st.written))
    ∧ (∀ (E : Type) (env : PostsEnv E) (st : PostsState) (it : SyncItem) (st' : PostsState),
        processItem env st it = ItemOut.fail st' → st' = st)
    ∧ (∀ (E : Type) (env : PostsEnv E) (st : PostsState) (it : SyncItem) (id : Int)
        (e : E) (es : List E),
        parseSyncItemId it.item = some ('L', id) → env.getevents id = some (e :: es) →
        env.writeDump 'L' id e = true →
        processItem env st it = ItemOut.ok
          { st with
            written := ('L', id) :: st.written,
            newEntries := st.newEntries + 1, lastSync := it.time, shouldWriteDB := true })
    ∧ (∀ (E : Type) (env : PostsEnv E) (st : PostsState) (items : List SyncItem)
        (st' : PostsState),
        processItems env st items = ItemOut.fail st' →
        ∃ pre it post, items = pre ++ it :: post ∧ processItems env st pre = ItemOut.ok st' ∧
          processItem env st' it = ItemOut.fail st') :=
  ⟨fun _ env st it st' => processItem_ok_advanced env st it st',
   fun _ env st it st' => processItem_fail_eq env st it st',
   fun _ env st it id e es => processItem_entry_success env st it id e es,
   fun _ env st items st' => processItems_fail_split env st items st'⟩

theorem postsCursorDiscipline_witness :
    processItems postsEnvW postsSt0 [⟨"L-7", "create", "t1"⟩, ⟨"L-9", "update", "t2"⟩] =
      ItemOut.fail ⟨"t1", true, 1, 0, [('L', 7)]⟩ ∧
    ∃ pre it post,
      ([⟨"L-7", "create", "t1"⟩, ⟨"L-9", "update", "t2"⟩] : List SyncItem) =
        pre ++ it :: post ∧
      processItems postsEnvW postsSt0 pre = ItemOut.ok ⟨"t1", true, 1, 0, [('L', 7)]⟩ ∧
      processItem postsEnvW ⟨"t1", true, 1, 0, [('L', 7)]⟩ it =
        ItemOut.fail ⟨"t1", true, 1, 0, [('L', 7)]⟩ :=
  ⟨by decide,
   postsCursorDiscipline.2.2.2 Unit postsEnvW postsSt0
     [⟨"L-7", "create", "t1"⟩, ⟨"L-9", "update", "t2"⟩]
     ⟨"t1", true, 1, 0, [('L', 7)]⟩ (by decide)⟩

theorem lookupKV_mapSet_self {α β : Type} [DecidableEq α] (l : List (α × β)) (k : α) (v : β) :
    lookupKV (mapSet l k v) k = some v := by
  induction l with
  | nil => simp [mapSet, lookupKV]
  | cons p rest ih =>
    by_cases hk : p.1 = k
    · simp [mapSet, hk, lookupKV]
    · simp only [mapSet]
      rw [if_neg hk]
      simp only [lookupKV, if_neg hk]
      exact ih

theorem lookupKV_mapSet_other {α β : Type} [DecidableEq α] (l : List (α × β))
    (k0 k : α) (v : β) (h : k0 ≠ k) :
    lookupKV (mapSet l k0 v) k = lookupKV l k := by
  induction l with
  | nil => simp [mapSet, lookupKV, h]
  | cons p rest ih =>
    by_cases hk : p.1 = k0
    · simp only [mapSet]
      rw [if_pos hk]
      simp only [lookupKV, if_neg h, if_neg (hk ▸ h : p.1 ≠ k)]
    · simp only [mapSet]
      rw [if_neg hk]
      by_cases hpk : p.1 = k
      · simp [lookupKV, hpk]
      · simp only [lookupKV, if_neg hpk]
        exact ih

theorem lookupKV_mergeIntoMap_not_mem {α β : Type} [DecidableEq α]
    (adds : List (α × β)) (base : List (α × β)) (k : α)
    (h : k ∉ adds.map Prod.fst) :
    lookupKV (mergeIntoMap base adds) k = lookupKV base k := by
  induction adds generalizing base with
  | nil => rfl
  | cons p rest ih =>
    simp only [List.map_cons, List.mem_cons] at h
    push_neg at h
    show lookupKV (mergeIntoMap (mapSet base p.1 p.2) rest) k = lookupKV base k
    rw [ih (mapSet base p.1 p.2) h.2]
    exact lookupKV_mapSet_other base p.1 k p.2 (fun he => h.1 he.symm)

theorem lookupKV_mergeIntoMap_mem {α β : Type} [DecidableEq α]
    (adds : List (α × β)) (base : List (α × β)) (k : α) (v : β)
    (hn : (adds.map Prod.fst).Nodup) (h : lookupKV adds k = some v) :
    lookupKV (mergeIntoMap base adds) k = some v := by
  induction adds generalizing base with
  | nil => cases h
  | cons p rest ih =>
    simp only [List.map_cons, List.nodup_cons] at hn
    by_cases hk : p.1 = k
    · simp only [lookupKV, if_pos hk] at h
      injection h with hv
      show lookupKV (mergeIntoMap (mapSet base p.1 p.2) rest) k = some v
      rw [lookupKV_mergeIntoMap_not_mem rest (mapSet base p.1 p.2) k (hk ▸ hn.1)]
      rw [hk, hv]
      exact lookupKV_mapSet_self base k v
    · simp only [lookupKV, if_neg hk] at h
      show lookupKV (mergeIntoMap (mapSet base p.1 p.2) rest) k = some v
      exact ih (mapSet base p.1 p.2) hn.2 h

/-- Claim C2 (amended): comment metadata and user-directory entries learned
during the meta pass are merged into the persisted journal state and the
state is marked dirty only when both the meta pass and the body pass complete
without error; every learned entry is then present in the journal DB.  (When
either pass fails partway, `dumpJournalComments` returns before the merge and
the learned entries are discarded — see the counterexample.) -/
theorem commentsMergeOnSuccess (env : CommentsEnv) (fuel : Nat) (s : CommentsRunState)
    (nc : List (Int × CommentMetaV)) (nu : List (Int × String)) (newMaxId : Int)
    (bs : BodyState)
    (hMeta : metaLoop env fuel [] [] (maxStoredCommentId s.db) = MetaOut.done nc nu newMaxId)
    (hBody : bodyLoop env s.db nc nu newMaxId fuel
      { maxFetchedId := maxStoredCommentId s.db, fs := s.fs,
        newCommentsCount := s.newCommentsCount } = BodyOut.done bs)
    (hNonempty : nc ≠ [] ∨ nu ≠ [])
    (hcm : nc ≠ [] → s.db.commentMap ≠ none)
    (hum : nu ≠ [] → s.db.userMap ≠ none)
    (hncn : (nc.map Prod.fst).Nodup) (hnun : (nu.map Prod.fst).Nodup) :
    ∃ s', dumpJournalComments env fuel s = CommentsOut.ok s' ∧
      s'.shouldWriteDB = true ∧
      (∀ k v, lookupKV nc k = some v → goMapGet s'.db.commentMap k = some v) ∧
      (∀ k v, lookupKV nu k = some v → goMapGet s'.db.userMap k = some v) ∧
      s'.db.lastSync = s.db.lastSync := by
  have hlen : nc.length ≠ 0 ∨ nu.length ≠ 0 := by
    rcases hNonempty with h | h
    · exact Or.inl (fun hh => h (List.length_eq_zero.mp hh))
    · exact Or.inr (fun hh => h (List.length_eq_zero.mp hh))
  have hnc2 : ¬(nc ≠ [] ∧ s.db.commentMap = none) := fun hc => hcm hc.1 hc.2
  have hnu2 : ¬(nu ≠ [] ∧ s.db.userMap = none) := fun hc => hum hc.1 hc.2
  refine ⟨{ db := { lastSync := s.db.lastSync,
                    userMap := if nu.isEmpty then s.db.userMap
                               else some (mergeIntoMap (s.db.userMap.getD []) nu),
                    commentMap := if nc.isEmpty then s.db.commentMap
                                  else some (mergeIntoMap (s.db.commentMap.getD []) nc) },
            shouldWriteDB := true, newCommentsCount := bs.newCommentsCount, fs := bs.fs },
    ?_, rfl, ?_, ?_, rfl⟩
  · show dumpJournalComments env fuel s = _
    unfold dumpJournalComments
    simp only [hMeta, hBody]
    rw [if_pos hlen, if_neg hnc2, if_neg hnu2]
  · intro k v hk
    cases nc with
    | nil => cases hk
    | cons p rest =>
      show goMapGet (if (p :: rest).isEmpty then s.db.commentMap
        else some (mergeIntoMap (s.db.commentMap.getD []) (p :: rest))) k = some v
      rw [List.isEmpty_cons, if_neg (by simp)]
      exact lookupKV_mergeIntoMap_mem (p :: rest) (s.db.commentMap.getD []) k v hncn hk
  · intro k v hk
    cases nu with
    | nil => cases hk
    | cons p rest =>
      show goMapGet (if (p :: rest).isEmpty then s.db.userMap
        else some (mergeIntoMap (s.db.userMap.getD []) (p :: rest))) k = some v
      rw [List.isEmpty_cons, if_neg (by simp)]
      exact lookupKV_mergeIntoMap_mem (p :: rest) (s.db.userMap.getD []) k v hnun hk

theorem commentsMergeOnSuccess_witness :
    metaLoop cmtEnvOkRun 3 [] [] (maxStoredCommentId cmtRunEmpty.db) =
      MetaOut.done [(1, ⟨7, "A"⟩)] [(7, "alice")] 1 ∧
    ∃ s', dumpJournalComments cmtEnvOkRun 3 cmtRunEmpty = CommentsOut.ok s' ∧
      s'.shouldWriteDB = true ∧
      (∀ k v, lookupKV [(1, (⟨7, "A"⟩ : CommentMetaV))] k = some v →
        goMapGet s'.db.commentMap k = some v) ∧
      (∀ k v, lookupKV [(7, "alice")] k = some v → goMapGet s'.db.userMap k = some v) ∧
      s'.db.lastSync = cmtRunEmpty.db.lastSync :=
  ⟨by decide,
   commentsMergeOnSuccess cmtEnvOkRun 3 cmtRunEmpty [(1, ⟨7, "A"⟩)] [(7, "alice")] 1
     ⟨1, [(3, FileContent.good [⟨1, "A", "alice", "", "d", "s", "b"⟩])], 1⟩
     (by decide) (by decide) (Or.inl (by decide)) (fun _ => by decide) (fun _ => by decide)
     (by decide) (by decide)⟩

theorem chunkMaxId_cons (i : Int) (rest : List Int) (m : Int) :
    chunkMaxId (i :: rest) m = chunkMaxId rest (if m < i then i else m) := rfl

theorem chunkMaxId_init_le (ids : List Int) (m : Int) : m ≤ chunkMaxId ids m := by
  induction ids generalizing m with
  | nil => exact le_refl m
  | cons i rest ih =>
    rw [chunkMaxId_cons]
    have h1 : m ≤ (if m < i then i else m) := by split <;> omega
    exact h1.trans (ih _)

theorem chunkMaxId_le_bound (ids : List Int) (m B : Int) (hm : m ≤ B)
    (h : ∀ i ∈ ids, i ≤ B) : chunkMaxId ids m ≤ B := by
  induction ids generalizing m with
  | nil => exact hm
  | cons i rest ih =>
    rw [chunkMaxId_cons]
    apply ih
    · have := h i (List.mem_cons_self i rest)
      split <;> omega
    · exact fun j hj => h j (List.mem_cons_of_mem i hj)

theorem chunkMaxId_mem_le (ids : List Int) (m i : Int) (h : i ∈ ids) :
    i ≤ chunkMaxId ids m := by
  induction ids generalizing m with
  | nil => cases h
  | cons j rest ih =>
    rw [chunkMaxId_cons]
    rcases List.mem_cons.mp h with he | hr
    · subst he
      have h1 : i ≤ (if m < i then i else m) := by split <;> omega
      exact h1.trans (chunkMaxId_init_le rest _)
    · exact ih _ hr

theorem lookupKV_mem {α β : Type} [DecidableEq α] (l : List (α × β)) (k : α) (v : β)
    (h : lookupKV l k = some v) : (k, v) ∈ l := by
  induction l with
  | nil => cases h
  | cons p rest ih =>
    obtain ⟨a, b⟩ := p
    by_cases hk : a = k
    · simp only [lookupKV, if_pos hk] at h
      injection h with hv
      subst hk
      subst hv
      exact List.mem_cons_self _ _
    · simp only [lookupKV, if_neg hk] at h
      exact List.mem_cons_of_mem _ (ih h)

theorem mapSet_mem {α β : Type} [DecidableEq α] (l : List (α × β)) (k : α) (v : β)
    (p : α × β) (h : p ∈ mapSet l k v) : p = (k, v) ∨ p ∈ l := by
  induction l with
  | nil =>
    simp only [mapSet, List.mem_singleton] at h
    exact Or.inl h
  | cons q rest ih =>
    simp only [mapSet] at h
    by_cases hk : q.1 = k
    · rw [if_pos hk] at h
      rcases List.mem_cons.mp h with he | hr
      · exact Or.inl he
      · exact Or.inr (List.mem_cons_of_mem q hr)
    · rw [if_neg hk] at h
      rcases List.mem_cons.mp h with he | hr
      · exact Or.inr (he ▸ List.mem_cons_self q rest)
      · rcases ih hr with h1 | h2
        · exact Or.inl h1
        · exact Or.inr (List.mem_cons_of_mem q h2)

theorem goodFs_mapSet (fs : List (Int × FileContent)) (j : Int) (l : List CommentRecord)
    (hg : goodFs fs) : goodFs (mapSet fs j (FileContent.good l)) := by
  intro p hp
  rcases mapSet_mem fs j (FileContent.good l) p hp with he | hm
  · rw [he]
    intro hbad
    cases hbad
  · exact hg p hm

theorem processBodyComment_ok (env : CommentsEnv) (db : JournalDB)
    (nc : List (Int × CommentMetaV)) (nu : List (Int × String))
    (hw : ∀ j l, env.writeOk j l = true)
    (bs : BodyState) (c : LJComment) (hg : goodFs bs.fs) :
    ∃ bs2, processBodyComment env db nc nu bs c = BRes.brOk bs2 ∧
      bs2.maxFetchedId = (if bs.maxFetchedId < c.id then c.id else bs.maxFetchedId) ∧
      goodFs bs2.fs := by
  unfold processBodyComment
  cases hl : lookupKV bs.fs c.jItemId with
  | none =>
    simp only [hl, hw]
    split
    · exact ⟨_, rfl, rfl, goodFs_mapSet bs.fs c.jItemId _ hg⟩
    · exact ⟨_, rfl, rfl, hg⟩
  | some fc =>
    cases fc with
    | bad =>
      have hmem := lookupKV_mem bs.fs c.jItemId FileContent.bad hl
      exact absurd rfl (hg _ hmem)
    | good l =>
      simp only [hl, hw]
      split
      · exact ⟨_, rfl, rfl, goodFs_mapSet bs.fs c.jItemId _ hg⟩
      · exact ⟨_, rfl, rfl, hg⟩

theorem processBodyList_ok (env : CommentsEnv) (db : JournalDB)
    (nc : List (Int × CommentMetaV)) (nu : List (Int × String))
    (hw : ∀ j l, env.writeOk j l = true) :
    ∀ (cs : List LJComment) (bs : BodyState), goodFs bs.fs →
    ∃ bs2, processBodyList env db nc nu bs cs = BRes.brOk bs2 ∧
      bs2.maxFetchedId = chunkMaxId (cs.map LJComment.id) bs.maxFetchedId ∧
      goodFs bs2.fs := by
  intro cs
  induction cs with
  | nil => exact fun bs hg => ⟨bs, rfl, rfl, hg⟩
  | cons c rest ih =>
    intro bs hg
    obtain ⟨bs1, hstep, hmax1, hg1⟩ := processBodyComment_ok env db nc nu hw bs c hg
    obtain ⟨bs2, hrest, hmax2, hg2⟩ := ih bs1 hg1
    refine ⟨bs2, ?_, ?_, hg2⟩
    · show (match processBodyComment env db nc nu bs c with
        | BRes.brErr bs2 => BRes.brErr bs2
        | BRes.brOk bs2 => processBodyList env db nc nu bs2 rest) = BRes.brOk bs2
      rw [hstep]
      exact hrest
    · rw [hmax2, hmax1, List.map_cons, chunkMaxId_cons]

theorem metaLoopReaches (env : CommentsEnv) (B : Int)
    (H : ∀ m : Int, m ≤ B → ∃ chunk, env.fetchMeta m = some chunk ∧ chunk.maxId ≤ B ∧
      (∀ c ∈ chunk.comments, c.id ≤ B) ∧ (m < chunk.maxId → ∃ c ∈ chunk.comments, m < c.id)) :
    ∀ (fuel : Nat) (nc : List (Int × CommentMetaV)) (nu : List (Int × String)) (m : Int),
      m ≤ B → (B - m).toNat < fuel →
      ∃ nc2 nu2 m2 mf chunk, metaLoop env fuel nc nu m = MetaOut.done nc2 nu2 m2 ∧
        env.fetchMeta mf = some chunk ∧ chunk.maxId ≤ m2 := by
  intro fuel
  induction fuel with
  | zero => exact fun nc nu m hm hf => absurd hf (Nat.not_lt_zero _)
  | succ f ih =>
    intro nc nu m hm hf
    obtain ⟨chunk, hfetch, hmax, hids, hadv⟩ := H m hm
    unfold metaLoop
    simp only [hfetch]
    by_cases hstop : chunkMaxId (List.map LJCommentMeta.id chunk.comments) m ≥ chunk.maxId
    · refine ⟨metaStepMap chunk.comments nc,
        chunk.userMaps.foldl (fun a u => mapSet a u.id u.user) nu,
        chunkMaxId (List.map LJCommentMeta.id chunk.comments) m, m, chunk, ?_, hfetch, hstop⟩
      rw [if_pos hstop]
    · have hinit := chunkMaxId_init_le (List.map LJCommentMeta.id chunk.comments) m
      have hm2B : chunkMaxId (List.map LJCommentMeta.id chunk.comments) m ≤ B := by
        apply chunkMaxId_le_bound _ _ _ hm
        intro i hi
        obtain ⟨c, hc, he⟩ := List.mem_map.mp hi
        exact he ▸ hids c hc
      have hmlt : m < chunk.maxId := by omega
      obtain ⟨c, hc, hcid⟩ := hadv hmlt
      have hcle := chunkMaxId_mem_le (List.map LJCommentMeta.id chunk.comments) m c.id
        (List.mem_map_of_mem LJCommentMeta.id hc)
      have hf2 : (B - chunkMaxId (List.map LJCommentMeta.id chunk.comments) m).toNat < f := by
        omega
      obtain ⟨nc2, nu2, m2, mf, chunk2, heq, hfetch2, hle⟩ :=
        ih (metaStepMap chunk.comments nc)
          (chunk.userMaps.foldl (fun a u => mapSet a u.id u.user) nu) _ hm2B hf2
      refine ⟨nc2, nu2, m2, mf, chunk2, ?_, hfetch2, hle⟩
      rw [if_neg hstop]
      exact heq

theorem bodyLoopReaches (env : CommentsEnv) (db : JournalDB)
    (nc : List (Int × CommentMetaV)) (nu : List (Int × String)) (T : Int)
    (hw : ∀ j l, env.writeOk j l = true)
    (H : ∀ m : Int, ∃ chunk, env.fetchBody m = some chunk ∧
      (m < T → ∃ c ∈ chunk.comments, m < c.id)) :
    ∀ (fuel : Nat) (bs : BodyState), goodFs bs.fs → (T - bs.maxFetchedId).toNat < fuel →
    ∃ bs2, bodyLoop env db nc nu T fuel bs = BodyOut.done bs2 ∧ T ≤ bs2.maxFetchedId := by
  intro fuel
  induction fuel with
  | zero => exact fun bs hg hf => absurd hf (Nat.not_lt_zero _)
  | succ f ih =>
    intro bs hg hf
    obtain ⟨chunk, hfetch, hadv⟩ := H bs.maxFetchedId
    obtain ⟨bs1, hlist, hmax1, hg1⟩ := processBodyList_ok env db nc nu hw chunk.comments bs hg
    unfold bodyLoop
    simp only [hfetch, hlist]
    by_cases hstop : bs1.maxFetchedId ≥ T
    · refine ⟨bs1, ?_, hstop⟩
      rw [if_pos hstop]
    · have hinit := chunkMaxId_init_le (List.map LJComment.id chunk.comments) bs.maxFetchedId
      have hmlt : bs.maxFetchedId < T := by omega
      obtain ⟨c, hc, hcid⟩ := hadv hmlt
      have hcle := chunkMaxId_mem_le (List.map LJComment.id chunk.comments) bs.maxFetchedId c.id
        (List.mem_map_of_mem LJComment.id hc)
      have hf2 : (T - bs1.maxFetchedId).toNat < f := by omega
      obtain ⟨bs2, heq, hle⟩ := ih bs1 hg1 hf2
      refine ⟨bs2, ?_, hle⟩
      rw [if_neg hstop]
      exact heq

/-- Claim C4: both comment pagination loops fetch each chunk at the current
frontier (the request uses `startid = frontier + 1`), advance the frontier to
the highest comment id seen in the chunk, and — provided every chunk fetched
while the frontier is below the target contains a comment id strictly above
the frontier — terminate with the frontier at or past the declared target:
for the meta pass the `maxid` declared by the final chunk (with all ids and
declared targets bounded by `B`, and enough fuel, since the Go loop has no
fuel), for the body pass the target `T` established by the meta pass. -/
theorem commentPaginationReachesTarget :
    (∀ (env : CommentsEnv) (B : Int),
      (∀ m : Int, m ≤ B → ∃ chunk, env.fetchMeta m = some chunk ∧ chunk.maxId ≤ B ∧
        (∀ c ∈ chunk.comments, c.id ≤ B) ∧ (m < chunk.maxId → ∃ c ∈ chunk.comments, m < c.id)) →
      ∀ (fuel : Nat) (nc : List (Int × CommentMetaV)) (nu : List (Int × String)) (m : Int),
        m ≤ B → (B - m).toNat < fuel →
        ∃ nc2 nu2 m2 mf chunk, metaLoop env fuel nc nu m = MetaOut.done nc2 nu2 m2 ∧
          env.fetchMeta mf = some chunk ∧ chunk.maxId ≤ m2)
    ∧ (∀ (env : CommentsEnv) (db : JournalDB) (nc : List (Int × CommentMetaV))
        (nu : List (Int × String)) (T : Int),
      (∀ j l, env.writeOk j l = true) →
      (∀ m : Int, ∃ chunk, env.fetchBody m = some chunk ∧
        (m < T → ∃ c ∈ chunk.comments, m < c.id)) →
      ∀ (fuel : Nat) (bs : BodyState), goodFs bs.fs → (T - bs.maxFetchedId).toNat < fuel →
      ∃ bs2, bodyLoop env db nc nu T fuel bs = BodyOut.done bs2 ∧ T ≤ bs2.maxFetchedId) :=
  ⟨metaLoopReaches, bodyLoopReaches⟩

theorem commentPaginationReachesTarget_witness :
    (∃ nc2 nu2 m2 mf chunk, metaLoop c4env 26 [] [] 80 = MetaOut.done nc2 nu2 m2 ∧
      c4env.fetchMeta mf = some chunk ∧ chunk.maxId ≤ m2)
    ∧ (∃ bs2, bodyLoop c4env jdbZero [] [] 105 26 ⟨80, [], 0⟩ = BodyOut.done bs2 ∧
      (105 : Int) ≤ bs2.maxFetchedId) := by
  constructor
  · refine commentPaginationReachesTarget.1 c4env 105 ?_ 26 [] [] 80 (by omega) (by omega)
    intro m hm
    refine ⟨_, rfl, le_refl _, ?_, ?_⟩
    · intro c hc
      simp only [c4env, List.mem_singleton] at hc
      subst hc
      simp only []
      split <;> omega
    · intro hlt
      have h105 : m < 105 := hlt
      refine ⟨⟨m + 1, 0, ""⟩, ?_, by show m < m + 1; omega⟩
      simp only [c4env, List.mem_singleton]
      rw [if_pos h105]
  · refine commentPaginationReachesTarget.2 c4env jdbZero [] [] 105 (fun _ _ => rfl) ?_ 26
      ⟨80, [], 0⟩ (by intro p hp; cases hp) (by show ((105 : Int) - 80).toNat < 26; decide)
    intro m
    refine ⟨_, rfl, ?_⟩
    intro hlt
    refine ⟨⟨m + 1, 0, "", 1, "", "", "", ""⟩, ?_, by show m < m + 1; omega⟩
    simp only [c4env, List.mem_singleton]
    rw [if_pos hlt]

/-- Claim C5: the persisted-state encoders are deterministic in the logical
mapping content: two journal DBs with the same cursor and the same
user/comment-meta key-value pairs (in any iteration order), and two account
states with the same scalars and the same picture URL/keyword pairs (in any
iteration order), encode to byte-identical `linedb` output, because every
mapping is sorted by key before its rows are emitted. -/
theorem persistedEncodersDeterministic
    (j1 j2 : JournalDB) (u1 u2 : List (Int × String))
    (cm1 cm2 : List (Int × CommentMetaV)) (a1 a2 : AccountData)
    (hls : j1.lastSync = j2.lastSync)
    (hu1 : j1.userMap = some u1) (hu2 : j2.userMap = some u2)
    (hup : u1.Perm u2) (hun : (u1.map Prod.fst).Nodup)
    (hc1 : j1.commentMap = some cm1) (hc2 : j2.commentMap = some cm2)
    (hcp : cm1.Perm cm2) (hcn : (cm1.map Prod.fst).Nodup)
    (hfc : a1.fileCounter = a2.fileCounter)
    (hdu : a1.pictureDefaultUrl = a2.pictureDefaultUrl)
    (hfp : a1.pictureUrlFileMap.Perm a2.pictureUrlFileMap)
    (hfn : (a1.pictureUrlFileMap.map Prod.fst).Nodup)
    (hkp : a1.pictureKeywordUrlMap.Perm a2.pictureKeywordUrlMap)
    (hkn : (a1.pictureKeywordUrlMap.map Prod.fst).Nodup) :
    writeJournalDBBytes j1 = writeJournalDBBytes j2 ∧
    writeAccountDataBytes a1 = writeAccountDataBytes a2 := by
  constructor
  · unfold writeJournalDBBytes
    rw [hls, hu1, hu2, hc1, hc2]
    simp only [Option.getD_some]
    rw [tableEmit_perm _ hup hun, tableEmit_perm _ hcp hcn]
  · unfold writeAccountDataBytes addSortedMapKeyValue
    rw [hfc, hdu, tableEmit_perm _ hfp hfn, tableEmit_perm _ hkp hkn]

theorem persistedEncodersDeterministic_witness :
    ([(2, "b"), (1, "a")] : List (Int × String)).Perm [(1, "a"), (2, "b")] ∧
    writeJournalDBBytes ⟨"t", some [(2, "b"), (1, "a")], some [(4, ⟨9, "S"⟩), (3, ⟨8, "D"⟩)]⟩ =
      writeJournalDBBytes ⟨"t", some [(1, "a"), (2, "b")], some [(3, ⟨8, "D"⟩), (4, ⟨9, "S"⟩)]⟩ ∧
    writeAccountDataBytes ⟨7, "du", [("x", "f1"), ("w", "f2")], [("k2", "x"), ("k1", "w")]⟩ =
      writeAccountDataBytes ⟨7, "du", [("w", "f2"), ("x", "f1")], [("k1", "w"), ("k2", "x")]⟩ :=
  ⟨by decide,
   (persistedEncodersDeterministic
     ⟨"t", some [(2, "b"), (1, "a")], some [(4, ⟨9, "S"⟩), (3, ⟨8, "D"⟩)]⟩
     ⟨"t", some [(1, "a"), (2, "b")], some [(3, ⟨8, "D"⟩), (4, ⟨9, "S"⟩)]⟩
     [(2, "b"), (1, "a")] [(1, "a"), (2, "b")]
     [(4, ⟨9, "S"⟩), (3, ⟨8, "D"⟩)] [(3, ⟨8, "D"⟩), (4, ⟨9, "S"⟩)]
     ⟨7, "du", [("x", "f1"), ("w", "f2")], [("k2", "x"), ("k1", "w")]⟩
     ⟨7, "du", [("w", "f2"), ("x", "f1")], [("k1", "w"), ("k2", "x")]⟩
     rfl rfl rfl (by decide) (by decide) rfl rfl (by decide) (by decide)
     rfl rfl (by decide) (by decide) (by decide) (by decide)).1,
   (persistedEncodersDeterministic
     ⟨"t", some [(2, "b"), (1, "a")], some [(4, ⟨9, "S"⟩), (3, ⟨8, "D"⟩)]⟩
     ⟨"t", some [(1, "a"), (2, "b")], some [(3, ⟨8, "D"⟩), (4, ⟨9, "S"⟩)]⟩
     [(2, "b"), (1, "a")] [(1, "a"), (2, "b")]
     [(4, ⟨9, "S"⟩), (3, ⟨8, "D"⟩)] [(3, ⟨8, "D"⟩), (4, ⟨9, "S"⟩)]
     ⟨7, "du", [("x", "f1"), ("w", "f2")], [("k2", "x"), ("k1", "w")]⟩
     ⟨7, "du", [("w", "f2"), ("x", "f1")], [("k1", "w"), ("k2", "x")]⟩
     rfl rfl rfl (by decide) (by decide) rfl rfl (by decide) (by decide)
     rfl rfl (by decide) (by decide) (by decide) (by decide)).2⟩
